import Mathlib

/-!
Verification of the llama-swap model auto-discovery pipeline.

The Go sources under `proxy/discovery/` (cache.go, gguf.go, config_gen.go)
and the config generator (`generateConfig` and friends in the config
package) are shallowly embedded below.  Strings are modelled by Lean
`String`s over their `List Char` data; Go's byte-oriented operations on
the ASCII inputs involved coincide with the character-level model.
`strings.ToLower` is modelled by ASCII lowercasing (`Char.toLower`),
which agrees with Go on every ASCII string.  Environment- and
filesystem-dependent inputs (the resolved cache directory, directory
listings, file contents) are passed as explicit parameters.
-/

namespace LlamaSwap

abbrev Chars := List Char

/-- Go `strings.TrimSuffix(s, p)`: drop `p` from the end of `s` when it is a
suffix, otherwise return `s` unchanged. -/
def trimSuffixL (s p : Chars) : Chars :=
  if p.isSuffixOf s then s.take (s.length - p.length) else s

/-- String wrapper for `trimSuffixL`. -/
def goTrimSuffix (s p : String) : String := ⟨trimSuffixL s.data p.data⟩

/-- Go `strings.HasSuffix(s, p)`. -/
def goHasSuffix (s p : String) : Bool := p.data.isSuffixOf s.data

/-- Go `strings.ToLower`, modelled on ASCII (agrees with Go there). -/
def goToLower (s : String) : String := ⟨s.data.map Char.toLower⟩

/-- Go `strings.Join(elems, sep)`. -/
def goJoinSep (sep : String) : List String → String
  | [] => ""
  | [s] => s
  | s :: rest => s ++ sep ++ goJoinSep sep rest

/-- Characters of `trimSuffixL s p` all come from `s`. -/
theorem mem_trimSuffixL {c : Char} {s p : Chars} (h : c ∈ trimSuffixL s p) : c ∈ s := by
  unfold trimSuffixL at h
  split at h
  · exact List.mem_of_mem_take h
  · exact h

/-- When `p` is a suffix of `s`, trimming then re-appending restores `s`. -/
theorem trimSuffixL_append_of_suffix {s p : Chars} (h : p.isSuffixOf s) :
    s = trimSuffixL s p ++ p := by
  unfold trimSuffixL
  rw [if_pos h]
  rw [List.isSuffixOf_iff_suffix] at h
  obtain ⟨t, ht⟩ := h
  subst ht
  rw [List.length_append, Nat.add_sub_cancel, List.take_left]

/-- When `p` is not a suffix of `s`, trimming is the identity. -/
theorem trimSuffixL_eq_of_not_suffix {s p : Chars} (h : ¬ p.isSuffixOf s) :
    trimSuffixL s p = s := by
  unfold trimSuffixL
  rw [if_neg h]

/-! ## gguf.go: filename inference -/

/-- The fixed quantization-suffix pattern list from `inferNameFromFilename`,
in source order. -/
def quantPatterns : List String :=
  ["-Q4_K_M", "-Q4_K_S", "-Q4_0", "-Q4_1",
   "-Q5_K_M", "-Q5_K_S", "-Q5_0", "-Q5_1",
   "-Q6_K", "-Q8_0", "-F16", "-F32",
   "_Q4_K_M", "_Q4_K_S", "_Q4_0", "_Q4_1",
   "_Q5_K_M", "_Q5_K_S", "_Q5_0", "_Q5_1",
   "_Q6_K", "_Q8_0", "_F16", "_F32"]

/-- The extension-stripping prelude of `inferNameFromFilename`:
`strings.TrimSuffix(filename, ".gguf")` followed by
`strings.TrimSuffix(name, ".GGUF")`. -/
def stripGGUFExt (filename : String) : String :=
  goTrimSuffix (goTrimSuffix filename ".gguf") ".GGUF"

/-- `inferNameFromFilename` from gguf.go: strip the `.gguf`/`.GGUF`
extension, then run one `TrimSuffix` per quantization pattern, in order. -/
def inferNameFromFilename (filename : String) : String :=
  quantPatterns.foldl (fun name pat => goTrimSuffix name pat) (stripGGUFExt filename)

/-- Each `TrimSuffix` pass removes material only from the end: the starting
string is the result followed by a concatenation of removed patterns. -/
theorem foldl_trimSuffix_decomp (ps : List Chars) (s : Chars) :
    ∃ removed : List Chars, (∀ p ∈ removed, p ∈ ps) ∧
      s = ps.foldl trimSuffixL s ++ removed.flatten := by
  induction ps generalizing s with
  | nil => exact ⟨[], by simp, by simp⟩
  | cons p ps ih =>
    obtain ⟨removed, hmem, hdec⟩ := ih (trimSuffixL s p)
    by_cases h : p.isSuffixOf s
    · refine ⟨removed ++ [p], ?_, ?_⟩
      · intro q hq
        rcases List.mem_append.mp hq with hq | hq
        · exact List.mem_cons_of_mem _ (hmem q hq)
        · simp only [List.mem_singleton] at hq
          subst hq; exact List.mem_cons_self _ _
      · have hs := trimSuffixL_append_of_suffix h
        calc s = trimSuffixL s p ++ p := hs
          _ = ((p :: ps).foldl trimSuffixL s ++ removed.flatten) ++ p := by
                rw [List.foldl_cons]; rw [← hdec]
          _ = (p :: ps).foldl trimSuffixL s ++ (removed ++ [p]).flatten := by
                simp [List.append_assoc]
    · refine ⟨removed, ?_, ?_⟩
      · intro q hq; exact List.mem_cons_of_mem _ (hmem q hq)
      · rw [List.foldl_cons]
        calc s = trimSuffixL s p := (trimSuffixL_eq_of_not_suffix h).symm
          _ = ps.foldl trimSuffixL (trimSuffixL s p) ++ removed.flatten := hdec

/-- Data-level view of the quantization-stripping fold. -/
theorem inferNameFromFilename_data (f : String) :
    (inferNameFromFilename f).data
      = (quantPatterns.map String.data).foldl trimSuffixL (stripGGUFExt f).data := by
  unfold inferNameFromFilename
  generalize stripGGUFExt f = s
  generalize quantPatterns = ps
  induction ps generalizing s with
  | nil => rfl
  | cons p ps ih => simpa [goTrimSuffix] using ih ⟨trimSuffixL s.data p.data⟩

/-! ## gguf.go: the metadata record -/

/-- `ModelMetadata` from gguf.go.  Go `int` fields are modelled by `Int`. -/
structure ModelMetadata where
  FilePath : String := ""
  FileName : String := ""
  Architecture : String := ""
  Name : String := ""
  SizeLabel : String := ""
  ContextLength : Int := 0
  EmbeddingLength : Int := 0
  Finetune : String := ""
deriving Repr, DecidableEq

/-! ## config_gen.go: model-ID generation -/

/-- Character predicate of `sanitizeModelID`: keep lowercase letters,
digits, hyphen and period. -/
def allowedChar (c : Char) : Bool :=
  ('a' ≤ c && c ≤ 'z') || ('0' ≤ c && c ≤ '9') || c = '-' || c = '.'

/-- `sanitizeModelID` from config_gen.go: drop every rune outside
`[a-z0-9-.]`. -/
def sanitizeModelID (id : String) : String := ⟨id.data.filter allowedChar⟩

/-- One `strings.ReplaceAll(id, old, "-")` pass for a single character. -/
def replaceCharWithHyphen (old : Char) (s : String) : String :=
  ⟨s.data.map (fun c => if c = old then '-' else c)⟩

/-- Kernel of the regexp `-+` collapse: the Boolean records whether the
previously emitted character was a hyphen. -/
def collapseHyphensAux : Chars → Bool → Chars
  | [], _ => []
  | c :: rest, prevHyphen =>
    if c = '-' then
      if prevHyphen then collapseHyphensAux rest true
      else '-' :: collapseHyphensAux rest true
    else c :: collapseHyphensAux rest false

/-- The regexp `-+` → `-` replacement of `GenerateModelID`. -/
def collapseHyphens (s : String) : String := ⟨collapseHyphensAux s.data false⟩

/-- `strings.Trim(id, "-")`: drop leading and trailing hyphens. -/
def trimHyphens (s : String) : String :=
  ⟨((s.data.dropWhile (· = '-')).reverse.dropWhile (· = '-')).reverse⟩

/-- The sanitization pipeline of `GenerateModelID` after the parts are
joined: lowercase, map spaces and underscores to hyphens, drop invalid
runes, collapse repeated hyphens, trim leading/trailing hyphens. -/
def sanitizePipeline (id : String) : String :=
  trimHyphens (collapseHyphens (sanitizeModelID
    (replaceCharWithHyphen '_' (replaceCharWithHyphen ' ' (goToLower id)))))

/-- The candidate parts collected by `GenerateModelID`: name, size label
and finetune, skipping empty fields; if all are empty, the filename with
`.gguf`/`.GGUF` trimmed is the sole part. -/
def modelIDParts (meta : ModelMetadata) : List String :=
  let parts :=
    (if meta.Name ≠ "" then [meta.Name] else []) ++
    (if meta.SizeLabel ≠ "" then [meta.SizeLabel] else []) ++
    (if meta.Finetune ≠ "" then [meta.Finetune] else [])
  if parts.length = 0 then
    [goTrimSuffix (goTrimSuffix meta.FileName ".gguf") ".GGUF"]
  else parts

/-- `GenerateModelID` from config_gen.go. -/
def GenerateModelID (meta : ModelMetadata) : String :=
  sanitizePipeline (goJoinSep "-" (modelIDParts meta))

/-- `GenerateDisplayName` from config_gen.go. -/
def GenerateDisplayName (meta : ModelMetadata) : String :=
  let parts :=
    (if meta.Name ≠ "" then [meta.Name] else []) ++
    (if meta.SizeLabel ≠ "" then [meta.SizeLabel] else []) ++
    (if meta.Finetune ≠ "" then [meta.Finetune] else [])
  if parts.length = 0 then inferNameFromFilename meta.FileName
  else goJoinSep " " parts

/-- The deduplication key of `DeduplicateModels`: the lower-cased
filename-inferred base name. -/
def dedupKey (m : ModelMetadata) : String :=
  goToLower (inferNameFromFilename m.FileName)

/-- The scan loop of `DeduplicateModels`, with the `seen` set as a list of
keys (Go uses `map[string]bool`; only membership matters). -/
def dedupLoop : List ModelMetadata → List String → List ModelMetadata
  | [], _ => []
  | m :: rest, seen =>
    if dedupKey m ∈ seen then dedupLoop rest seen
    else m :: dedupLoop rest (dedupKey m :: seen)

/-- `DeduplicateModels` from config_gen.go. -/
def DeduplicateModels (models : List ModelMetadata) : List ModelMetadata :=
  if models.length ≤ 1 then models
  else dedupLoop models []

/-! ## Path primitives (Unix `filepath.Base`, `filepath.Clean`,
`filepath.Join`) used by cache.go and gguf.go -/

/-- Trailing-separator strip of `filepath.Base`. -/
def stripTrailingSlashes (p : Chars) : Chars := (p.reverse.dropWhile (· = '/')).reverse

/-- The final path element: everything after the last separator. -/
def afterLastSlash (p : Chars) : Chars := (p.reverse.takeWhile (fun c => c ≠ '/')).reverse

/-- Go `filepath.Base` on Unix: empty path gives `"."`; otherwise drop
trailing separators and keep the last element; all-separator paths give
`"/"`. -/
def goBaseL (path : Chars) : Chars :=
  if path = [] then ['.']
  else
    let p1 := stripTrailingSlashes path
    let p2 := afterLastSlash p1
    if p2 = [] then ['/'] else p2

/-- String wrapper for `goBaseL`. -/
def goBase (path : String) : String := ⟨goBaseL path.data⟩

/-- Backtracking of Go `filepath.Clean` on `..`: with the write pointer
already decremented to `w`, keep decrementing while above the `dotdot`
boundary and the character under the pointer is not a separator, then
truncate at the pointer. -/
def btAux (out : Chars) (dotdot : Nat) : Nat → Chars
  | 0 => out.take 0
  | w + 1 =>
    if dotdot < w + 1 ∧ out.getD (w + 1) ' ' ≠ '/' then btAux out dotdot w
    else out.take (w + 1)

/-- Main loop of Go `filepath.Clean` (Unix separators), transcribed from
the stdlib: `rest` is the unread input, `out` the output buffer, `dotdot`
the backtracking boundary. -/
def cleanLoop (rooted : Bool) : Chars → Chars → Nat → Chars
  | [], out, _ => out
  | c :: rest, out, dotdot =>
    if c = '/' then
      cleanLoop rooted rest out dotdot
    else if c = '.' ∧ (rest = [] ∨ rest.head? = some '/') then
      cleanLoop rooted rest out dotdot
    else if c = '.' ∧ rest.head? = some '.' ∧
        (rest.tail = [] ∨ rest.tail.head? = some '/') then
      if dotdot < out.length then
        cleanLoop rooted rest.tail (btAux out dotdot (out.length - 1)) dotdot
      else if !rooted then
        let out2 := (if 0 < out.length then out ++ ['/'] else out) ++ ['.', '.']
        cleanLoop rooted rest.tail out2 out2.length
      else
        cleanLoop rooted rest.tail out dotdot
    else
      let out2 := (if (rooted && out.length != 1) || (!rooted && out.length != 0)
          then out ++ ['/'] else out) ++ (c :: rest.takeWhile (fun x => x ≠ '/'))
      cleanLoop rooted (rest.dropWhile (fun x => x ≠ '/')) out2 dotdot
termination_by rest _ _ => rest.length
decreasing_by
  all_goals simp_wf
  all_goals first
    | omega
    | exact Nat.lt_succ_of_le (List.Sublist.length_le (List.dropWhile_sublist _))

/-- Go `filepath.Clean` on Unix. -/
def goCleanL (path : Chars) : Chars :=
  if path = [] then ['.']
  else
    let rooted : Bool := path.head? == some '/'
    let out :=
      if rooted then cleanLoop true path.tail ['/'] 1
      else cleanLoop false path [] 0
    if out = [] then ['.'] else out

/-- String wrapper for `goCleanL`. -/
def goClean (path : String) : String := ⟨goCleanL path.data⟩

/-- Go `filepath.Join(a, b)` on Unix: join the non-empty elements with a
separator and clean the result. -/
def goJoinPath (a b : String) : String :=
  if a = "" ∧ b = "" then ""
  else if a = "" then goClean b
  else goClean (a ++ "/" ++ b)

/-! ## gguf.go: cache scanning -/

/-- One entry of `os.ReadDir`. -/
structure DirEntry where
  name : String
  isDir : Bool
deriving Repr, DecidableEq

/-- Outcome of the `os.Stat`/`os.ReadDir` probes of `ScanCacheForGGUF`
on the cleaned cache path. -/
inductive CacheStat where
  | notExist
  | statError (msg : String)
  | file
  | dirUnreadable (msg : String)
  | dir (entries : List DirEntry)
deriving Repr, DecidableEq

/-- The per-entry condition of the scan loop: skip directories, keep
names whose lower-cased form ends in `.gguf`. -/
def scanMatch (e : DirEntry) : Bool :=
  !e.isDir && goHasSuffix (goToLower e.name) ".gguf"

/-- `ScanCacheForGGUF` from gguf.go.  `cacheDirRes` is the result of
`GetCacheDirectory()` (environment-dependent, resolved outside), `stat`
the filesystem's answer for the cleaned cache path. -/
def ScanCacheForGGUF (cacheDirRes : Except String String) (stat : CacheStat) :
    Except String (List String) :=
  match cacheDirRes with
  | .error e => .error ("failed to get cache directory: " ++ e)
  | .ok cacheDir0 =>
    let cacheDir := goClean cacheDir0
    match stat with
    | .notExist => .ok []
    | .statError e => .error ("failed to stat cache directory: " ++ e)
    | .file => .error ("cache path is not a directory: " ++ cacheDir)
    | .dirUnreadable e => .error ("failed to read cache directory: " ++ e)
    | .dir entries =>
      .ok ((entries.filter scanMatch).map (fun e => goJoinPath cacheDir e.name))

/-! ## gguf.go: metadata extraction

Modelled from the spec: the GGUF format library (`github.com/abrander/gguf`)
is an external dependency, "treated as an opaque dependency exposing typed
key/value lookups by name".  A parsed file is a finite table from key names
to typed values; a typed lookup fails when the key is absent or holds a
value of another type.  A filesystem maps paths to parsed tables; a missing
or unparsable file yields an open error. -/

/-- A typed GGUF metadata value (only the types the extractor reads). -/
inductive MetaValue where
  | str (s : String)
  | int (i : Int)
deriving Repr, DecidableEq

/-- A parsed GGUF metadata table. -/
abbrev MetaTable := List (String × MetaValue)

/-- Typed string lookup (`g.Metadata.String(key)`). -/
def metaString (t : MetaTable) (key : String) : Except String String :=
  match t.lookup key with
  | some (.str s) => .ok s
  | some _ => .error ("key has wrong type: " ++ key)
  | none => .error ("key not found: " ++ key)

/-- Typed integer lookup (`g.Metadata.Int(key)`). -/
def metaInt (t : MetaTable) (key : String) : Except String Int :=
  match t.lookup key with
  | some (.int i) => .ok i
  | some _ => .error ("key has wrong type: " ++ key)
  | none => .error ("key not found: " ++ key)

/-- The filesystem as seen through `gguf.OpenFile`: path to parsed table
(`none` models a missing or unparsable file). -/
abbrev GGUFFS := List (String × Option MetaTable)

/-- `gguf.OpenFile(path)` over the modelled filesystem. -/
def openGGUF (fs : GGUFFS) (path : String) : Option MetaTable :=
  match fs.lookup path with
  | some (some t) => some t
  | _ => none

/-- Optional read of `general.name` (`if name, err := ...; err == nil`). -/
def readName (g : MetaTable) (meta : ModelMetadata) : ModelMetadata :=
  match metaString g "general.name" with
  | .ok name => { meta with Name := name }
  | .error _ => meta

/-- Optional read of `general.size_label`. -/
def readSizeLabel (g : MetaTable) (meta : ModelMetadata) : ModelMetadata :=
  match metaString g "general.size_label" with
  | .ok sizeLabel => { meta with SizeLabel := sizeLabel }
  | .error _ => meta

/-- Optional read of `general.finetune`. -/
def readFinetune (g : MetaTable) (meta : ModelMetadata) : ModelMetadata :=
  match metaString g "general.finetune" with
  | .ok finetune => { meta with Finetune := finetune }
  | .error _ => meta

/-- Optional read of the architecture-qualified context length. -/
def readContextLength (g : MetaTable) (arch : String) (meta : ModelMetadata) :
    ModelMetadata :=
  match metaInt g (arch ++ ".context_length") with
  | .ok ctx => { meta with ContextLength := ctx }
  | .error _ => meta

/-- Optional read of the architecture-qualified embedding length. -/
def readEmbeddingLength (g : MetaTable) (arch : String) (meta : ModelMetadata) :
    ModelMetadata :=
  match metaInt g (arch ++ ".embedding_length") with
  | .ok emb => { meta with EmbeddingLength := emb }
  | .error _ => meta

/-- The filename-inference fallback at the end of `ExtractMetadata`. -/
def nameFallback (meta : ModelMetadata) : ModelMetadata :=
  if meta.Name = "" then { meta with Name := inferNameFromFilename meta.FileName }
  else meta

/-- `ExtractMetadata` from gguf.go: open the file, require the
architecture key, read the optional string and integer keys permissively,
and fall back to the filename-inferred name when no name was found. -/
def ExtractMetadata (fs : GGUFFS) (path : String) : Except String ModelMetadata :=
  match openGGUF fs path with
  | none => .error ("failed to open GGUF file: " ++ path)
  | some g =>
    match metaString g "general.architecture" with
    | .error e => .error ("missing general.architecture: " ++ e)
    | .ok arch =>
      .ok (nameFallback (readEmbeddingLength g arch (readContextLength g arch
        (readFinetune g (readSizeLabel g (readName g
          { FilePath := path, FileName := goBase path, Architecture := arch }))))))

/-- Per-file failure message recorded by the `DiscoverModels` loop. -/
def failMessage (fs : GGUFFS) (path : String) : String :=
  goBase path ++ ": " ++
    (match ExtractMetadata fs path with
     | .error e => e
     | .ok _ => "")

/-- The accumulating step of the `DiscoverModels` loop. -/
def discoverStep (fs : GGUFFS) (acc : List ModelMetadata × List String)
    (filePath : String) : List ModelMetadata × List String :=
  match ExtractMetadata fs filePath with
  | .error _ => (acc.1, acc.2 ++ [failMessage fs filePath])
  | .ok meta => (acc.1 ++ [meta], acc.2)

/-- `DiscoverModels` from gguf.go, over an already-scanned candidate list
(`ScanCacheForGGUF` is modelled separately): extract every candidate,
recording failures; succeed when anything succeeded, aggregate all
failure messages otherwise. -/
def DiscoverModelsFrom (fs : GGUFFS) (ggufFiles : List String) :
    Except String (List ModelMetadata) :=
  if ggufFiles.length = 0 then .ok []
  else
    let res := ggufFiles.foldl (discoverStep fs) ([], [])
    if 0 < res.1.length ∧ 0 < res.2.length then .ok res.1
    else if 0 < res.2.length then
      .error ("failed to parse any GGUF files: " ++ goJoinSep "; " res.2)
    else .ok res.1

/-! ## cache.go: `GetCacheFile` -/

/-- Observable outcome of `GetCacheFile`: the returned value and the
`os.MkdirAll` calls performed (the filesystem side effects), each
recorded as the directory together with the permission mode passed. -/
structure CacheFileOutcome where
  result : Except String String
  mkdirCalls : List (String × Nat)
deriving Repr

/-- `GetCacheFile` from cache.go.  `cacheDirRes` is the result of
`GetCacheDirectory()`; `mkdirFails` the outcome of `os.MkdirAll` on the
cleaned cache directory (`none` = success).  The source calls
`os.MkdirAll(cacheDir, 0700)`, so every performed call is recorded with
the owner-only mode `0o700`. -/
def GetCacheFile (cacheDirRes : Except String String) (mkdirFails : Option String)
    (filename : String) : CacheFileOutcome :=
  if goBase filename ≠ filename then
    ⟨.error ("filename must not contain directory separators: " ++ filename), []⟩
  else
    match cacheDirRes with
    | .error e => ⟨.error e, []⟩
    | .ok cacheDir0 =>
      let cacheDir := goClean cacheDir0
      match mkdirFails with
      | some e => ⟨.error ("failed to create cache directory: " ++ e), [(cacheDir, 0o700)]⟩
      | none => ⟨.ok (goJoinPath cacheDir filename), [(cacheDir, 0o700)]⟩

/-! ## The config generator (`generateModelConfig`, `generateConfig`) -/

/-- The per-model slice of the generated config. -/
structure ModelConfig where
  Cmd : String := ""
  Name : String := ""
  Description : String := ""
deriving Repr, DecidableEq

/-- The generated `Config`: the scalar defaults plus the model map,
modelled as an association list with Go-map insert-or-overwrite
semantics. -/
structure Config where
  HealthCheckTimeout : Int := 0
  StartPort : Int := 0
  LogLevel : String := ""
  MetricsMaxInMemory : Int := 0
  Models : List (String × ModelConfig) := []
deriving Repr, DecidableEq

/-- Go-map assignment `m[k] = v`: overwrite an existing key, else append. -/
def mapInsert (m : List (String × ModelConfig)) (k : String) (v : ModelConfig) :
    List (String × ModelConfig) :=
  if m.any (fun kv => kv.1 = k) then
    m.map (fun kv => if kv.1 = k then (k, v) else kv)
  else m ++ [(k, v)]

/-- `generateModelConfig` from the config package: build the command line
(binary, model path, port placeholder, and a context-size flag when the
context length is positive), the display name and the description. -/
def generateModelConfig (meta : ModelMetadata) (serverPath : String) :
    Except String ModelConfig :=
  if serverPath = "" then .error "server path cannot be empty"
  else
    let cmdParts := [serverPath, "--model", meta.FilePath, "--port", "${PORT}"] ++
      (if 0 < meta.ContextLength then ["--ctx-size", toString meta.ContextLength] else [])
    let cmd := goJoinSep " " cmdParts
    let desc :=
      if meta.SizeLabel ≠ "" then
        "Auto-discovered " ++ meta.Architecture ++ " " ++ meta.SizeLabel ++ " model"
      else "Auto-discovered " ++ meta.Architecture ++ " model"
    .ok { Cmd := cmd, Name := GenerateDisplayName meta, Description := desc }

/-- Lookup in the `usedIDs` map of `generateConfig`. -/
def lookupCount : List (String × Nat) → String → Option Nat
  | [], _ => none
  | (k', v) :: rest, k => if k' = k then some v else lookupCount rest k

/-- Overwriting update of the `usedIDs` map (the key is present):
rewrite every binding of `k` to `v`, keep the rest. -/
def updateCount : List (String × Nat) → String → Nat → List (String × Nat)
  | [], _, _ => []
  | (k', v') :: rest, k, v =>
    if k' = k then (k, v) :: updateCount rest k v
    else (k', v') :: updateCount rest k v

/-- The duplicate-ID handling of `generateConfig`: a seen base ID gets the
suffix `-(count+1)` and bumps the counter, a fresh base ID is used bare
and registered with counter 0. -/
def pickID (usedIDs : List (String × Nat)) (baseID : String) :
    String × List (String × Nat) :=
  match lookupCount usedIDs baseID with
  | some count => (baseID ++ "-" ++ toString (count + 1), updateCount usedIDs baseID (count + 1))
  | none => (baseID, usedIDs ++ [(baseID, 0)])

/-- The per-descriptor loop of `generateConfig`. -/
def generateLoop (serverPath : String) :
    List ModelMetadata → List (String × Nat) → List (String × ModelConfig) →
    Except String (List (String × ModelConfig))
  | [], _, acc => .ok acc
  | meta :: rest, usedIDs, acc =>
    let p := pickID usedIDs (GenerateModelID meta)
    match generateModelConfig meta serverPath with
    | .error e => .error ("failed to generate config for " ++ p.1 ++ ": " ++ e)
    | .ok mc => generateLoop serverPath rest p.2 (mapInsert acc p.1 mc)

/-- `generateConfig` from the config package: reject empty inputs, then
build the model map under the fixed scalar defaults. -/
def generateConfig (models : List ModelMetadata) (serverPath : String) :
    Except String Config :=
  if models.length = 0 then .error "no models provided"
  else if serverPath = "" then .error "server path cannot be empty"
  else
    match generateLoop serverPath models [] [] with
    | .error e => .error e
    | .ok ms =>
      .ok { HealthCheckTimeout := 120, StartPort := 5800, LogLevel := "info",
            MetricsMaxInMemory := 1000, Models := ms }

/-- The sequence of model IDs `generateConfig` assigns, in input order
(the loop's `pickID` steps, detached from the map building). -/
def assignIDs : List ModelMetadata → List (String × Nat) → List String
  | [], _ => []
  | meta :: rest, usedIDs =>
    (pickID usedIDs (GenerateModelID meta)).1 ::
      assignIDs rest (pickID usedIDs (GenerateModelID meta)).2

/-! ## Spec-level comparison definitions -/

/-- Number of earlier descriptors sharing a base ID. -/
def countBase (l : List ModelMetadata) (b : String) : Nat :=
  (l.filter (fun m => GenerateModelID m = b)).length

/-- Follows the spec's words for collision handling: the first occurrence
of a base ID keeps the bare ID, the k-th subsequent occurrence receives
the suffix `-k`. -/
def specAssignFrom (prior : List ModelMetadata) : List ModelMetadata → List String
  | [] => []
  | m :: rest =>
    (if countBase prior (GenerateModelID m) = 0 then GenerateModelID m
     else GenerateModelID m ++ "-" ++ toString (countBase prior (GenerateModelID m))) ::
    specAssignFrom (prior ++ [m]) rest

/-- Follows the spec's words for deduplication: keep the first descriptor
per lower-cased filename-inferred key, in scan order. -/
def dedupSpec : List ModelMetadata → List ModelMetadata
  | [] => []
  | m :: rest => m :: dedupSpec (rest.filter (fun m2 => dedupKey m2 != dedupKey m))
termination_by l => l.length
decreasing_by
  simp_wf
  exact Nat.lt_succ_of_le (List.length_filter_le _ _)

/-! ## Supporting lemmas -/

theorem lookupCount_append_single (m : List (String × Nat)) (b : String) (v : Nat)
    (k : String) : lookupCount (m ++ [(b, v)]) k
      = match lookupCount m k with
        | some x => some x
        | none => if b = k then some v else none := by
  induction m with
  | nil => simp [lookupCount]
  | cons kv rest ih =>
    obtain ⟨k', v'⟩ := kv
    by_cases h : k' = k
    · simp [lookupCount, h]
    · simpa [lookupCount, h] using ih

theorem lookupCount_updateCount (m : List (String × Nat)) (b : String) (v : Nat)
    (k : String) : lookupCount (updateCount m b v) k
      = if b = k then (lookupCount m k).map (fun _ => v) else lookupCount m k := by
  induction m with
  | nil => simp [lookupCount, updateCount]
  | cons kv rest ih =>
    obtain ⟨k', v'⟩ := kv
    by_cases hb : k' = b
    · subst hb
      by_cases hk : k' = k
      · subst hk; simp [updateCount, lookupCount]
      · simp [updateCount, lookupCount, hk, ih]
    · by_cases hk : k' = k
      · subst hk
        have hbk : ¬ b = k' := fun h => hb h.symm
        simp [updateCount, lookupCount, hb, hbk]
      · simp [updateCount, lookupCount, hb, hk, ih]

theorem countBase_append_single (prior : List ModelMetadata) (m : ModelMetadata)
    (b : String) : countBase (prior ++ [m]) b
      = countBase prior b + (if GenerateModelID m = b then 1 else 0) := by
  unfold countBase
  rw [List.filter_append]
  by_cases h : GenerateModelID m = b
  · simp [h]
  · simp [h]

/-- The invariant between the loop's `usedIDs` map and the processed
prefix carries through one step and yields the spec-level description of
the assigned ID sequence. -/
theorem assignIDs_eq_specAssign (models : List ModelMetadata) :
    ∀ (usedIDs : List (String × Nat)) (prior : List ModelMetadata),
    (∀ b, lookupCount usedIDs b
      = if countBase prior b = 0 then none else some (countBase prior b - 1)) →
    assignIDs models usedIDs = specAssignFrom prior models := by
  induction models with
  | nil => intro _ _ _; rfl
  | cons m rest ih =>
    intro usedIDs prior hinv
    have hb := hinv (GenerateModelID m)
    cases hlook : lookupCount usedIDs (GenerateModelID m) with
    | none =>
      have hc0 : countBase prior (GenerateModelID m) = 0 := by
        rw [hlook] at hb
        by_contra h
        rw [if_neg h] at hb
        exact Option.noConfusion hb
      simp only [assignIDs, specAssignFrom, pickID, hlook, hc0, if_pos]
      congr 1
      apply ih
      intro b'
      rw [lookupCount_append_single, countBase_append_single, hinv b']
      by_cases hbb : GenerateModelID m = b'
      · rw [← hbb, hc0]
        simp
      · simp only [if_neg hbb, Nat.add_zero]
        by_cases h0 : countBase prior b' = 0
        · simp [h0, hbb]
        · simp [h0]
    | some c =>
      have hcs : countBase prior (GenerateModelID m) = c + 1 := by
        rw [hlook] at hb
        by_cases h0 : countBase prior (GenerateModelID m) = 0
        · rw [if_pos h0] at hb
          exact Option.noConfusion hb
        · rw [if_neg h0] at hb
          have := Option.some.inj hb
          omega
      simp only [assignIDs, specAssignFrom, pickID, hlook, hcs, Nat.succ_ne_zero, if_neg]
      congr 1
      apply ih
      intro b'
      rw [lookupCount_updateCount, countBase_append_single, hinv b']
      by_cases hbb : GenerateModelID m = b'
      · rw [← hbb, hcs]
        simp
      · simp only [if_neg hbb, Nat.add_zero]

/-- The seen-set scan of `DeduplicateModels` equals first-per-key
filtering, for any starting set of already-seen keys. -/
theorem dedupLoop_eq_dedupSpec (models : List ModelMetadata) :
    ∀ seen : List String,
    dedupLoop models seen
      = dedupSpec (models.filter (fun m => decide (dedupKey m ∉ seen))) := by
  induction models with
  | nil => intro seen; simp [dedupLoop, dedupSpec]
  | cons m rest ih =>
    intro seen
    by_cases hm : dedupKey m ∈ seen
    · rw [List.filter_cons_of_neg (by simpa using hm)]
      simpa [dedupLoop, hm] using ih seen
    · rw [List.filter_cons_of_pos (by simpa using hm)]
      rw [dedupLoop, if_neg hm]
      rw [dedupSpec, List.filter_filter]
      have hf : rest.filter (fun m2 => decide (dedupKey m2 ∉ (dedupKey m :: seen)))
          = rest.filter (fun m2 => (dedupKey m2 != dedupKey m) && decide (dedupKey m2 ∉ seen)) := by
        apply List.filter_congr
        intro x _
        by_cases hx : dedupKey x = dedupKey m
        · simp [hx]
        · simp [hx, List.mem_cons]
      rw [ih (dedupKey m :: seen), hf]

/-- Characters emitted by the hyphen collapse all come from the input. -/
theorem mem_collapseHyphensAux {c : Char} :
    ∀ {l : Chars} {b : Bool}, c ∈ collapseHyphensAux l b → c ∈ l := by
  intro l
  induction l with
  | nil => intro b h; exact absurd h (List.not_mem_nil c)
  | cons x rest ih =>
    intro b h
    unfold collapseHyphensAux at h
    by_cases hx : x = '-'
    · rw [if_pos hx] at h
      cases b with
      | true => simp only [if_pos trivial] at h; exact List.mem_cons_of_mem _ (ih h)
      | false =>
        simp only [Bool.false_eq_true, if_neg] at h
        rcases List.mem_cons.mp h with h | h
        · subst h; rw [hx]; exact List.mem_cons_self _ _
        · exact List.mem_cons_of_mem _ (ih h)
    · rw [if_neg hx] at h
      rcases List.mem_cons.mp h with h | h
      · subst h; exact List.mem_cons_self _ _
      · exact List.mem_cons_of_mem _ (ih h)

/-- Characters surviving the hyphen trim all come from the input. -/
theorem mem_trimHyphens {c : Char} {s : String} (h : c ∈ (trimHyphens s).data) :
    c ∈ s.data := by
  unfold trimHyphens at h
  simp only [List.mem_reverse] at h
  have h1 : c ∈ (s.data.dropWhile (· = '-')).reverse :=
    (List.dropWhile_sublist _).subset h
  rw [List.mem_reverse] at h1
  exact (List.dropWhile_sublist _).subset h1

/-- Every character of a sanitized pipeline output is in `[a-z0-9-.]`. -/
theorem sanitizePipeline_chars {c : Char} {s : String}
    (h : c ∈ (sanitizePipeline s).data) : allowedChar c = true := by
  unfold sanitizePipeline at h
  have h1 := mem_trimHyphens h
  unfold collapseHyphens at h1
  have h2 := mem_collapseHyphensAux h1
  unfold sanitizeModelID at h2
  exact (List.mem_filter.mp h2).2

/-! ## Supporting lemmas for the discovery batch -/

/-- Successful-extraction projection. -/
def exOk? : Except String ModelMetadata → Option ModelMetadata
  | .ok m => some m
  | .error _ => none

/-- The descriptors of the files whose extraction succeeded, in order. -/
def extractOks (fs : GGUFFS) (files : List String) : List ModelMetadata :=
  files.filterMap (fun p => exOk? (ExtractMetadata fs p))

/-- The failure messages of the files whose extraction failed, in order. -/
def extractFailMsgs (fs : GGUFFS) (files : List String) : List String :=
  (files.filter (fun p => (exOk? (ExtractMetadata fs p)).isNone)).map (failMessage fs)

/-- The discover loop accumulates exactly the successful descriptors and
the failure messages, in order. -/
theorem foldl_discoverStep (fs : GGUFFS) (files : List String) :
    ∀ ms fl, files.foldl (discoverStep fs) (ms, fl)
      = (ms ++ extractOks fs files, fl ++ extractFailMsgs fs files) := by
  induction files with
  | nil => intro ms fl; simp [extractOks, extractFailMsgs]
  | cons p rest ih =>
    intro ms fl
    rw [List.foldl_cons]
    cases hE : ExtractMetadata fs p with
    | error e =>
      have hstep : discoverStep fs (ms, fl) p = (ms, fl ++ [failMessage fs p]) := by
        unfold discoverStep; rw [hE]
      rw [hstep, ih]
      unfold extractOks extractFailMsgs
      rw [List.filterMap_cons, List.filter_cons]
      simp [exOk?, hE]
    | ok meta =>
      have hstep : discoverStep fs (ms, fl) p = (ms ++ [meta], fl) := by
        unfold discoverStep; rw [hE]
      rw [hstep, ih]
      unfold extractOks extractFailMsgs
      rw [List.filterMap_cons, List.filter_cons]
      simp [exOk?, hE]

/-- Every element of a joined list is an infix of the join. -/
theorem mem_goJoinSep_infix {s : String} {sep : String} :
    ∀ {l : List String}, s ∈ l → s.data <:+: (goJoinSep sep l).data := by
  intro l
  induction l with
  | nil => intro h; exact absurd h (List.not_mem_nil s)
  | cons x rest ih =>
    intro h
    cases rest with
    | nil =>
      simp only [List.mem_singleton] at h
      subst h
      exact List.infix_refl _
    | cons y t =>
      rcases List.mem_cons.mp h with h | h
      · subst h
        show s.data <:+: (s ++ sep ++ goJoinSep sep (y :: t)).data
        rw [String.data_append, String.data_append]
        exact List.IsPrefix.isInfix ⟨sep.data ++ (goJoinSep sep (y :: t)).data, by
          rw [List.append_assoc]⟩
      · have hsuf : (goJoinSep sep (y :: t)).data <:+ (x ++ sep ++ goJoinSep sep (y :: t)).data := by
          rw [String.data_append]
          exact ⟨(x ++ sep).data, rfl⟩
        exact List.IsInfix.trans (ih h) hsuf.isInfix

/-! ## Supporting lemmas for `filepath.Base` -/

/-- A member violating the predicate forces `takeWhile` to stop early. -/
theorem length_takeWhile_lt_of_mem {q : Char → Bool} {l : Chars} {a : Char}
    (ha : a ∈ l) (hqa : q a = false) : (l.takeWhile q).length < l.length := by
  induction l with
  | nil => exact absurd ha (List.not_mem_nil a)
  | cons x rest ih =>
    by_cases hx : q x
    · rw [List.takeWhile_cons_of_pos hx]
      rcases List.mem_cons.mp ha with h | h
      · subst h; rw [hx] at hqa; exact absurd hqa (by simp)
      · simpa [List.length_cons] using Nat.succ_lt_succ (ih h)
    · rw [List.takeWhile_cons_of_neg hx]
      simp [Nat.succ_pos]

/-- On a path that contains a separator but is not the bare root `"/"`,
`filepath.Base` returns a strictly shorter string, hence never the path
itself. -/
theorem goBaseL_ne_of_mem_slash {l : Chars} (hmem : '/' ∈ l) (hne : l ≠ ['/']) :
    goBaseL l ≠ l := by
  have hl0 : l ≠ [] := by rintro rfl; exact absurd hmem (List.not_mem_nil _)
  unfold goBaseL
  rw [if_neg hl0]
  by_cases h2 : afterLastSlash (stripTrailingSlashes l) = []
  · rw [if_pos h2]
    exact fun h => hne h.symm
  · rw [if_neg h2]
    have hlen : (afterLastSlash (stripTrailingSlashes l)).length < l.length := by
      unfold afterLastSlash stripTrailingSlashes
      rw [List.length_reverse, List.reverse_reverse]
      cases hr : l.reverse with
      | nil => exact absurd (by simpa using congrArg List.length hr) (by simpa using hl0)
      | cons c r' =>
        have hlr : l.length = r'.length + 1 := by
          have := congrArg List.length hr
          simpa [List.length_reverse] using this
        by_cases hc : c = '/'
        · rw [List.dropWhile_cons_of_pos (by simp [hc])]
          have h1 : (List.dropWhile (fun x => decide (x = '/')) r').length ≤ r'.length :=
            (List.dropWhile_sublist _).length_le
          have h2' : ((List.dropWhile (fun x => decide (x = '/')) r').takeWhile
              (fun c => decide (c ≠ '/'))).length
              ≤ (List.dropWhile (fun x => decide (x = '/')) r').length :=
            (List.takeWhile_sublist _).length_le
          omega
        · rw [List.dropWhile_cons_of_neg (by simp [hc])]
          have hmem' : '/' ∈ c :: r' := by
            rw [← hr, List.mem_reverse]; exact hmem
          have := length_takeWhile_lt_of_mem (q := fun c => decide (c ≠ '/'))
            hmem' (by simp)
          simp only [List.length_cons] at this
          omega
    intro h
    rw [h] at hlen
    exact Nat.lt_irrefl _ hlen

/-- None of the optional reads or the name fallback changes the
architecture field. -/
theorem Architecture_preserved (g : MetaTable) (arch : String) (m : ModelMetadata) :
    (nameFallback (readEmbeddingLength g arch (readContextLength g arch
      (readFinetune g (readSizeLabel g (readName g m)))))).Architecture
      = m.Architecture := by
  unfold nameFallback readEmbeddingLength readContextLength readFinetune
    readSizeLabel readName
  repeat' split
  all_goals rfl

/-- A Go-map insert grows the association list by at most one entry. -/
theorem mapInsert_length_le (m : List (String × ModelConfig)) (k : String)
    (v : ModelConfig) : (mapInsert m k v).length ≤ m.length + 1 := by
  unfold mapInsert
  split
  · simp
  · simp

/-- With a non-empty server path, `generateModelConfig` always succeeds. -/
theorem generateModelConfig_ok (m : ModelMetadata) (srv : String) (h : srv ≠ "") :
    ∃ mc, generateModelConfig m srv = .ok mc := by
  unfold generateModelConfig
  rw [if_neg h]
  exact ⟨_, rfl⟩

/-- With a non-empty server path, the config loop always succeeds, and it
produces at most one map entry per descriptor. -/
theorem generateLoop_ok (srv : String) (h : srv ≠ "") :
    ∀ (models : List ModelMetadata) (used : List (String × Nat))
      (acc : List (String × ModelConfig)),
    ∃ ms, generateLoop srv models used acc = .ok ms ∧
      ms.length ≤ acc.length + models.length := by
  intro models
  induction models with
  | nil => intro used acc; exact ⟨acc, rfl, by simp⟩
  | cons m rest ih =>
    intro used acc
    obtain ⟨mc, hmc⟩ := generateModelConfig_ok m srv h
    obtain ⟨ms, h1, h2⟩ := ih (pickID used (GenerateModelID m)).2
      (mapInsert acc (pickID used (GenerateModelID m)).1 mc)
    refine ⟨ms, ?_, ?_⟩
    · rw [generateLoop, hmc]
      exact h1
    · have := mapInsert_length_le acc (pickID used (GenerateModelID m)).1 mc
      simp only [List.length_cons]
      omega

/-! ## Claim theorems -/

/-- C1 counterexample: with all three metadata fields empty and file name
`"custom-model-Q4_K_M.gguf"`, `GenerateModelID` yields
`"custom-model-q4-k-m"` — the quantization token is NOT stripped before
sanitization — and not the `"custom-model"` the claim requires.  (The
repository's own test expects `"custom-model-q4-k-m"`.) -/
theorem c1_counterexample :
    GenerateModelID { FileName := "custom-model-Q4_K_M.gguf" }
      = "custom-model-q4-k-m" ∧
    GenerateModelID { FileName := "custom-model-Q4_K_M.gguf" }
      ≠ "custom-model" := by
  constructor
  · decide
  · decide

/-- C1 (amended): when Name, SizeLabel and Finetune are all empty,
`GenerateModelID` falls back to the raw filename with only the
`.gguf`/`.GGUF` extension trimmed — the quantization token is not
stripped — and sanitizes that. -/
theorem c1_fallback_uses_unstripped_filename (meta : ModelMetadata)
    (h1 : meta.Name = "") (h2 : meta.SizeLabel = "") (h3 : meta.Finetune = "") :
    GenerateModelID meta
      = sanitizePipeline (goTrimSuffix (goTrimSuffix meta.FileName ".gguf") ".GGUF") := by
  unfold GenerateModelID modelIDParts
  simp [h1, h2, h3, goJoinSep]

/-- C1 witness: the amended fallback rule at the concrete descriptor of
the claim. -/
theorem c1_witness :
    GenerateModelID { FileName := "custom-model-Q4_K_M.gguf" }
      = sanitizePipeline (goTrimSuffix (goTrimSuffix "custom-model-Q4_K_M.gguf" ".gguf") ".GGUF") :=
  c1_fallback_uses_unstripped_filename { FileName := "custom-model-Q4_K_M.gguf" } rfl rfl rfl

/-- C2 counterexample: `inferNameFromFilename` can strip two trailing
quantization tokens — `"model-Q5_0-Q4_0.gguf"` yields `"model"`, not the
claimed `"model-Q5_0"` — and the extension strip is not case-insensitive:
`"m.Gguf"` keeps its extension. -/
theorem c2_counterexample :
    inferNameFromFilename "model-Q5_0-Q4_0.gguf" = "model" ∧
    inferNameFromFilename "model-Q5_0-Q4_0.gguf" ≠ "model-Q5_0" ∧
    inferNameFromFilename "m.Gguf" = "m.Gguf" := by
  refine ⟨?_, ?_, ?_⟩ <;> decide

/-- C2 (amended): `inferNameFromFilename` strips the extension only when
it is exactly `.gguf` or `.GGUF`, then runs one `TrimSuffix` per
recognized pattern in the fixed list order; every removal happens at the
end, so the extension-stripped name always decomposes as the result
followed by a (possibly empty, possibly multi-token) concatenation of
recognized quantization tokens. -/
theorem c2_strip_trailing_decomposition (filename : String) :
    ∃ removed : List Chars, (∀ p ∈ removed, p ∈ quantPatterns.map String.data) ∧
      (stripGGUFExt filename).data
        = (inferNameFromFilename filename).data ++ removed.flatten := by
  obtain ⟨removed, hmem, hdec⟩ :=
    foldl_trimSuffix_decomp (quantPatterns.map String.data) (stripGGUFExt filename).data
  exact ⟨removed, hmem, by rw [inferNameFromFilename_data]; exact hdec⟩

/-- C2 witness: the decomposition at the two-token filename. -/
theorem c2_witness :
    ∃ removed : List Chars, (∀ p ∈ removed, p ∈ quantPatterns.map String.data) ∧
      (stripGGUFExt "model-Q5_0-Q4_0.gguf").data
        = (inferNameFromFilename "model-Q5_0-Q4_0.gguf").data ++ removed.flatten :=
  c2_strip_trailing_decomposition "model-Q5_0-Q4_0.gguf"

/-- C6 counterexample: `GenerateModelID` output can be empty — a
descriptor whose name is a single underscore produces `""`, which does
not match the non-empty pattern `[a-z0-9-.]+`. -/
theorem c6_counterexample :
    GenerateModelID { Name := "_" } = "" ∧
    ¬ 0 < (GenerateModelID { Name := "_" }).data.length := by
  constructor
  · decide
  · decide

/-- C6 (amended): `GenerateModelID` is deterministic, and every character
of its output lies in `[a-z0-9-.]` — i.e. the output always matches
`[a-z0-9-.]*`, though it can be empty. -/
theorem c6_deterministic_charset :
    (∀ m1 m2 : ModelMetadata, m1 = m2 → GenerateModelID m1 = GenerateModelID m2) ∧
    (∀ (m : ModelMetadata) (c : Char),
      c ∈ (GenerateModelID m).data → allowedChar c = true) := by
  constructor
  · intro m1 m2 h
    exact congrArg GenerateModelID h
  · intro m c hc
    exact sanitizePipeline_chars hc

/-- C6 witness: determinism and the character set at a concrete
descriptor. -/
theorem c6_witness :
    GenerateModelID { Name := "llama" } = GenerateModelID { Name := "llama" } ∧
    allowedChar 'l' = true :=
  ⟨c6_deterministic_charset.1 { Name := "llama" } { Name := "llama" } rfl,
   c6_deterministic_charset.2 { Name := "llama" } 'l' (by decide)⟩

/-- C7 counterexample: two descriptors whose filenames differ only in the
trailing quantization token do NOT always collapse: with shared base
`"x-Q8_0"`, stripping cascades on the first file (both `-Q4_K_M` and then
`-Q8_0` are removed) but not on the second (`-F16` is removed after
`-Q8_0` was already checked), so the keys differ and both survive. -/
theorem c7_counterexample :
    DeduplicateModels [{ FileName := "x-Q8_0-Q4_K_M.gguf" }, { FileName := "x-Q8_0-F16.gguf" }]
      = [{ FileName := "x-Q8_0-Q4_K_M.gguf" }, { FileName := "x-Q8_0-F16.gguf" }] ∧
    (DeduplicateModels [{ FileName := "x-Q8_0-Q4_K_M.gguf" },
      { FileName := "x-Q8_0-F16.gguf" }]).length ≠ 1 := by
  constructor
  · decide
  · decide

/-- C7 (amended): `DeduplicateModels` groups by the lower-cased
filename-inferred key, keeps exactly the first descriptor per key, and
preserves first-seen order — descriptors collapse exactly when their keys
coincide (which can fail for quantization variants whose shared base
itself ends in a recognized token). -/
theorem c7_first_per_key (models : List ModelMetadata) :
    DeduplicateModels models = dedupSpec models := by
  unfold DeduplicateModels
  by_cases h : models.length ≤ 1
  · rw [if_pos h]
    match models, h with
    | [], _ => simp [dedupSpec]
    | [m], _ => simp [dedupSpec]
  · rw [if_neg h]
    rw [dedupLoop_eq_dedupSpec models []]
    congr 1
    rw [List.filter_eq_self.mpr]
    intro m _
    simp

/-- C3 counterexample: three descriptors produce only two config entries.
The first two share base ID `"m"`, so the second is suffixed to `"m-1"`;
the third descriptor's bare base ID is also `"m-1"`, is not recorded in
`usedIDs` (which is keyed by base IDs only), and overwrites the second
entry in the model map. -/
theorem c3_counterexample :
    assignIDs [{ Name := "m" }, { Name := "m" }, { Name := "m-1" }] []
      = ["m", "m-1", "m-1"] ∧
    Except.map (fun c => c.Models.length)
      (generateConfig [{ Name := "m" }, { Name := "m" }, { Name := "m-1" }]
        "/usr/bin/llama-server") = .ok 2 := by
  constructor
  · decide
  · rfl

/-- C3 (amended): within each base-ID group `generateConfig` follows the
claimed scheme — the first occurrence keeps the bare base ID and the k-th
subsequent occurrence receives suffix `-k` — and the run always succeeds
on non-empty input with at most one map entry per descriptor; but a
suffixed ID can coincide with another descriptor's bare base ID, in which
case the map entry is overwritten and the config has fewer entries than
descriptors. -/
theorem c3_suffix_per_base_id :
    (∀ models : List ModelMetadata, assignIDs models [] = specAssignFrom [] models) ∧
    (∀ (models : List ModelMetadata) (srv : String), models ≠ [] → srv ≠ "" →
      ∃ cfg, generateConfig models srv = .ok cfg ∧
        cfg.Models.length ≤ models.length) := by
  constructor
  · intro models
    apply assignIDs_eq_specAssign
    intro b
    simp [lookupCount, countBase]
  · intro models srv hm hsrv
    unfold generateConfig
    rw [if_neg (fun hh => hm (List.length_eq_zero.mp hh)), if_neg hsrv]
    obtain ⟨ms, hloop, hlen⟩ := generateLoop_ok srv hsrv models [] []
    rw [hloop]
    exact ⟨_, rfl, by simpa using hlen⟩

/-- C3 witness: the suffix scheme and the entry bound at a concrete
input. -/
theorem c3_witness :
    assignIDs [{ Name := "m" }] [] = specAssignFrom [] [{ Name := "m" }] ∧
    ∃ cfg, generateConfig [{ Name := "m" }] "/x" = .ok cfg ∧
      cfg.Models.length ≤ 1 := by
  refine ⟨c3_suffix_per_base_id.1 _, ?_⟩
  simpa using c3_suffix_per_base_id.2 [{ Name := "m" }] "/x" (by simp) (by decide)

/-- C4 (confirmed): when at least one extraction succeeds, the batch
succeeds with exactly the successful descriptors in order; when all
extractions fail on a non-empty candidate list, the batch fails with the
semicolon-joined aggregate of every per-file message, and the message
contains every failed file's base name. -/
theorem c4_discover_batch (fs : GGUFFS) (files : List String) :
    (extractOks fs files ≠ [] →
      DiscoverModelsFrom fs files = .ok (extractOks fs files)) ∧
    (files ≠ [] → extractOks fs files = [] →
      DiscoverModelsFrom fs files
        = .error ("failed to parse any GGUF files: "
            ++ goJoinSep "; " (extractFailMsgs fs files)) ∧
      ∀ p ∈ files, (goBase p).data
        <:+: ("failed to parse any GGUF files: "
            ++ goJoinSep "; " (extractFailMsgs fs files)).data) := by
  constructor
  · intro hoks
    have hf : files ≠ [] := by
      rintro rfl
      exact hoks rfl
    unfold DiscoverModelsFrom
    rw [if_neg (fun hh => hf (List.length_eq_zero.mp hh))]
    rw [foldl_discoverStep fs files [] []]
    simp only [List.nil_append]
    have hop : 0 < (extractOks fs files).length := List.length_pos.mpr hoks
    by_cases hm : 0 < (extractFailMsgs fs files).length
    · rw [if_pos ⟨hop, hm⟩]
    · rw [if_neg (fun hh => hm hh.2), if_neg hm]
  · intro hf hoks
    have hall : ∀ p ∈ files, exOk? (ExtractMetadata fs p) = none :=
      List.filterMap_eq_nil_iff.mp hoks
    have hmsgs : extractFailMsgs fs files = files.map (failMessage fs) := by
      unfold extractFailMsgs
      rw [List.filter_eq_self.mpr]
      intro p hp
      rw [hall p hp]
      rfl
    have hmpos : 0 < (extractFailMsgs fs files).length := by
      rw [hmsgs, List.length_map]
      exact List.length_pos.mpr hf
    constructor
    · unfold DiscoverModelsFrom
      rw [if_neg (fun hh => hf (List.length_eq_zero.mp hh))]
      rw [foldl_discoverStep fs files [] []]
      simp only [List.nil_append]
      rw [hoks]
      rw [if_neg (fun hh => by simpa using hh.1), if_pos hmpos]
    · intro p hp
      have h1 : (goBase p).data <+: (failMessage fs p).data := by
        unfold failMessage
        simp only [String.data_append, List.append_assoc]
        exact ⟨_, rfl⟩
      have h2 : (failMessage fs p).data
          <:+: (goJoinSep "; " (extractFailMsgs fs files)).data := by
        apply mem_goJoinSep_infix
        rw [hmsgs]
        exact List.mem_map_of_mem _ hp
      have h3 : (goJoinSep "; " (extractFailMsgs fs files)).data
          <:+ ("failed to parse any GGUF files: "
            ++ goJoinSep "; " (extractFailMsgs fs files)).data := by
        rw [String.data_append]
        exact ⟨_, rfl⟩
      exact (h1.isInfix.trans h2).trans h3.isInfix

/-- C4 witness: a mixed batch (one good descriptor, one bad file)
succeeds with the good descriptor; an all-bad batch fails with each base
name in the message. -/
theorem c4_witness :
    DiscoverModelsFrom
      [("good.gguf", some [("general.architecture", MetaValue.str "llama")]),
       ("bad.gguf", none)]
      ["good.gguf", "bad.gguf"]
      = .ok (extractOks
          [("good.gguf", some [("general.architecture", MetaValue.str "llama")]),
           ("bad.gguf", none)] ["good.gguf", "bad.gguf"]) ∧
    (DiscoverModelsFrom [("bad.gguf", (none : Option MetaTable))] ["bad.gguf"]
      = .error ("failed to parse any GGUF files: "
          ++ goJoinSep "; " (extractFailMsgs [("bad.gguf", none)] ["bad.gguf"])) ∧
      ∀ p ∈ ["bad.gguf"], (goBase p).data
        <:+: ("failed to parse any GGUF files: "
          ++ goJoinSep "; " (extractFailMsgs [("bad.gguf", none)] ["bad.gguf"])).data) :=
  ⟨(c4_discover_batch _ _).1 (by decide),
   (c4_discover_batch _ _).2 (by decide) (by decide)⟩

/-- C5 counterexample: a file whose architecture key is PRESENT but holds
the empty string survives extraction with an empty `Architecture` field,
refuting the non-emptiness invariant. -/
theorem c5_counterexample :
    ExtractMetadata [("a.gguf", some [("general.architecture", MetaValue.str "")])]
        "a.gguf"
      = .ok { FilePath := "a.gguf", FileName := "a.gguf", Architecture := "",
              Name := "a" } ∧
    ({ FilePath := "a.gguf", FileName := "a.gguf", Architecture := "",
       Name := "a" } : ModelMetadata).Architecture = "" := by
  constructor
  · rfl
  · rfl

/-- C5 (amended): extraction fails exactly as claimed when the
architecture lookup fails (key absent or of the wrong type), and every
surviving descriptor's `Architecture` equals the string stored in the
file — which is therefore non-empty whenever the stored value is, but can
be the empty string. -/
theorem c5_architecture_required (fs : GGUFFS) (path : String) :
    (∀ g e, openGGUF fs path = some g →
      metaString g "general.architecture" = .error e →
      ExtractMetadata fs path = .error ("missing general.architecture: " ++ e)) ∧
    (∀ meta, ExtractMetadata fs path = .ok meta →
      ∃ g, openGGUF fs path = some g ∧
        metaString g "general.architecture" = .ok meta.Architecture) := by
  constructor
  · intro g e hopen harch
    simp [ExtractMetadata, hopen, harch]
  · intro meta h
    unfold ExtractMetadata at h
    split at h
    · exact absurd h (by simp)
    · rename_i g hopen
      split at h
      · exact absurd h (by simp)
      · rename_i arch harch
        have hmeta := Except.ok.inj h
        exact ⟨g, hopen, by rw [harch, ← hmeta, Architecture_preserved]⟩

/-- C5 witness: the failure case on a table without the key, and the
success case recovering the stored architecture. -/
theorem c5_witness :
    ExtractMetadata [("b.gguf", some [])] "b.gguf"
      = .error ("missing general.architecture: " ++ "key not found: general.architecture") ∧
    ∃ g, openGGUF [("c.gguf", some [("general.architecture", MetaValue.str "llama")])]
        "c.gguf" = some g ∧
      metaString g "general.architecture"
        = .ok (({ FilePath := "c.gguf", FileName := "c.gguf", Architecture := "llama",
                  Name := "c" } : ModelMetadata)).Architecture :=
  ⟨(c5_architecture_required [("b.gguf", some [])] "b.gguf").1 []
      "key not found: general.architecture" rfl rfl,
   (c5_architecture_required _ "c.gguf").2 _ rfl⟩

/-- C8 (confirmed): scanning a directory returns exactly the paths of the
non-directory entries whose lower-cased names end in `.gguf` (so N
matching entries give N paths and nothing else), a nonexistent cache
directory gives an empty list without error, and an existing non-directory
cache path gives an error. -/
theorem c8_scan_filter (cd : String) (entries : List DirEntry) :
    (ScanCacheForGGUF (.ok cd) (.dir entries)
      = .ok ((entries.filter scanMatch).map (fun e => goJoinPath (goClean cd) e.name))) ∧
    (∀ p ∈ (entries.filter scanMatch).map (fun e => goJoinPath (goClean cd) e.name),
      ∃ e ∈ entries, scanMatch e = true ∧ p = goJoinPath (goClean cd) e.name) ∧
    ((entries.filter scanMatch).map (fun e => goJoinPath (goClean cd) e.name)).length
      = (entries.filter scanMatch).length ∧
    ScanCacheForGGUF (.ok cd) .notExist = .ok [] ∧
    ScanCacheForGGUF (.ok cd) .file
      = .error ("cache path is not a directory: " ++ goClean cd) := by
  refine ⟨rfl, ?_, List.length_map _ _, rfl, rfl⟩
  intro p hp
  obtain ⟨e, he, hpe⟩ := List.mem_map.mp hp
  have hef := List.mem_filter.mp he
  exact ⟨e, hef.1, hef.2, hpe.symm⟩

/-- C8 witness: a mixed-case matching file is kept, a non-matching file
and a directory are dropped. -/
theorem c8_witness :
    ScanCacheForGGUF (.ok "/cache")
        (.dir [⟨"A.GgUf", false⟩, ⟨"b.txt", false⟩, ⟨"c.gguf", true⟩])
      = .ok [goJoinPath (goClean "/cache") "A.GgUf"] ∧
    ∃ e ∈ [⟨"A.GgUf", false⟩, ⟨"b.txt", false⟩, (⟨"c.gguf", true⟩ : DirEntry)],
      scanMatch e = true ∧
      goJoinPath (goClean "/cache") "A.GgUf" = goJoinPath (goClean "/cache") e.name :=
  ⟨((c8_scan_filter "/cache" [⟨"A.GgUf", false⟩, ⟨"b.txt", false⟩, ⟨"c.gguf", true⟩]).1).trans
      (by rfl),
   (c8_scan_filter "/cache" [⟨"A.GgUf", false⟩, ⟨"b.txt", false⟩, ⟨"c.gguf", true⟩]).2.1
      (goJoinPath (goClean "/cache") "A.GgUf") (List.mem_singleton.mpr rfl)⟩

/-- C9 counterexample: the filename `"/"` contains a directory separator,
yet `filepath.Base("/") = "/"` passes the guard and `GetCacheFile`
succeeds (returning the cleaned cache directory itself), refuting "fails
for any name containing a directory separator". -/
theorem c9_counterexample :
    '/' ∈ ("/" : String).data ∧
    (GetCacheFile (.ok "/cache/") none "/").result
      = .ok (goJoinPath (goClean "/cache/") "/") ∧
    (GetCacheFile (.ok "/cache/") none "/").result = .ok "/cache" := by
  refine ⟨by decide, rfl, ?_⟩
  simp [GetCacheFile, goBase, goBaseL, stripTrailingSlashes, afterLastSlash,
    goJoinPath, goClean, goCleanL, cleanLoop, btAux]

/-- C9 (amended): `GetCacheFile` fails, with no filesystem operation,
exactly when the base name differs from the filename; every name that
contains a separator and is not the bare `"/"` is such a name (`"/"` is
the lone separator-containing name that passes); and a name equal to its
own base succeeds when the cache directory resolves, creating that
directory with owner-only permissions (a single `MkdirAll` call with mode
`0o700`) and returning the joined path. -/
theorem c9_base_guard :
    (∀ (cd : Except String String) (mk : Option String) (f : String),
      goBase f ≠ f →
      GetCacheFile cd mk f
        = ⟨.error ("filename must not contain directory separators: " ++ f), []⟩) ∧
    (∀ f : String, '/' ∈ f.data → f ≠ "/" → goBase f ≠ f) ∧
    (∀ (cd f : String), goBase f = f →
      GetCacheFile (.ok cd) none f
        = ⟨.ok (goJoinPath (goClean cd) f), [(goClean cd, 0o700)]⟩) := by
  refine ⟨?_, ?_, ?_⟩
  · intro cd mk f h
    unfold GetCacheFile
    rw [if_pos h]
  · intro f hmem hne
    intro heq
    have hd : goBaseL f.data = f.data := congrArg String.data heq
    have hne' : f.data ≠ ['/'] := by
      intro hd'
      exact hne (by cases f; simp_all)
    exact goBaseL_ne_of_mem_slash hmem hne' hd
  · intro cd f h
    unfold GetCacheFile
    rw [if_neg (fun hh => hh h)]

/-- C9 witness: a separated name fails without touching the filesystem, a
plain name succeeds with the owner-only directory-creation side effect. -/
theorem c9_witness :
    GetCacheFile (.ok "/c") none "a/b"
      = ⟨.error ("filename must not contain directory separators: " ++ "a/b"), []⟩ ∧
    goBase "a/b" ≠ "a/b" ∧
    GetCacheFile (.ok "/c") none "model.gguf"
      = ⟨.ok (goJoinPath (goClean "/c") "model.gguf"), [(goClean "/c", 0o700)]⟩ :=
  ⟨c9_base_guard.1 (.ok "/c") none "a/b" (by decide),
   c9_base_guard.2.1 "a/b" (by decide) (by decide),
   c9_base_guard.2.2 "/c" "model.gguf" (by decide)⟩

/-- C10 (confirmed): every successfully generated config carries the
fixed scalar defaults — health-check timeout 120, start port 5800, log
level `"info"`, metrics cap 1000 — regardless of the input. -/
theorem c10_defaults (models : List ModelMetadata) (srv : String) (cfg : Config)
    (h : generateConfig models srv = .ok cfg) :
    cfg.HealthCheckTimeout = 120 ∧ cfg.StartPort = 5800 ∧
    cfg.LogLevel = "info" ∧ cfg.MetricsMaxInMemory = 1000 := by
  unfold generateConfig at h
  split at h
  · exact absurd h (by simp)
  · split at h
    · exact absurd h (by simp)
    · split at h
      · exact absurd h (by simp)
      · have hcfg := Except.ok.inj h
        rw [← hcfg]
        exact ⟨rfl, rfl, rfl, rfl⟩

/-- C10 witness: the defaults of a concretely generated config. -/
theorem c10_witness :
    ({ HealthCheckTimeout := 120, StartPort := 5800, LogLevel := "info",
       MetricsMaxInMemory := 1000,
       Models := [("m", { Cmd := "/x --model  --port ${PORT}", Name := "m",
                          Description := "Auto-discovered  model" })] } : Config).HealthCheckTimeout = 120 ∧
    ({ HealthCheckTimeout := 120, StartPort := 5800, LogLevel := "info",
       MetricsMaxInMemory := 1000,
       Models := [("m", { Cmd := "/x --model  --port ${PORT}", Name := "m",
                          Description := "Auto-discovered  model" })] } : Config).StartPort = 5800 ∧
    ({ HealthCheckTimeout := 120, StartPort := 5800, LogLevel := "info",
       MetricsMaxInMemory := 1000,
       Models := [("m", { Cmd := "/x --model  --port ${PORT}", Name := "m",
                          Description := "Auto-discovered  model" })] } : Config).LogLevel = "info" ∧
    ({ HealthCheckTimeout := 120, StartPort := 5800, LogLevel := "info",
       MetricsMaxInMemory := 1000,
       Models := [("m", { Cmd := "/x --model  --port ${PORT}", Name := "m",
                          Description := "Auto-discovered  model" })] } : Config).MetricsMaxInMemory = 1000 :=
  c10_defaults [{ Name := "m" }] "/x" _ rfl

end LlamaSwap
